import Mathlib

/-!
Verification of the CircuitDAO keeper-bots price-feed core against its
natural-language specification.

The development shallowly embeds the price-feed components of the repository:

* `Oracle` (src/keeper_bots/price_feeds/base_oracle.py, duplicated in
  src/keeper_bots/price_feeds/okx_oracle_feed.py): rolling-window VWAP with
  USDT conversion, notional filtering, startup gating, staleness flagging and
  outlier trimming.
* `OkxFeed` (src/keeper_bots/okx_feed.py): the legacy feed that maintains the
  volume-weighted price incrementally (`recalculate_on_append` /
  `recalculate_on_pop`).
* `PriceAggregator` (src/keeper_bots/price_feeds/price_aggregator.py).

Python floats are modelled as exact rationals (`ℚ`); a float that can be NaN
is modelled as `Option ℚ` with `none` standing for NaN (and for Python's
`None` where the source uses it as "absent").  Timestamps are integers
(milliseconds), as in the source (`int(time.time() * 1000)`).  Fallible code
returns `Except PyErr _`.  Metadata dictionaries are association lists in
insertion order, so key-presence claims are statable.
-/

deriving instance DecidableEq for Except

/- Batteries marks the `Rat` arithmetic operations `@[irreducible]`, which
blocks `decide` from evaluating concrete rational computations; the model
below is executable, so restore the default reducibility for them. -/
set_option allowUnsafeReducibility true
attribute [semireducible] Rat.add Rat.mul Rat.inv Rat.sub Rat.neg Rat.div

namespace KeeperBots

/-- Exceptions the modelled Python code can raise. -/
inductive PyErr where
  | valueError
  | indexError
  | zeroDivisionError
  | statisticsError
  deriving DecidableEq, Repr

/-- A value stored in a metadata dictionary. -/
inductive MetaVal where
  | b (v : Bool)
  | n (v : ℕ)
  | q (v : ℚ)
  | i (v : ℤ)
  deriving DecidableEq, Repr

/-- A Python dict used as metadata: an association list in insertion order. -/
abbrev Meta := List (String × MetaVal)

/-- Python's `sorted` on a list of floats. -/
def pySorted (l : List ℚ) : List ℚ := List.insertionSort (· ≤ ·) l

/-- Python's `statistics.median`: middle element of the sorted list, or the
mean of the two middle elements for even length.  (The source only applies it
to non-empty lists; `statistics.median([])` raises, which no modelled call
site can reach.) -/
def pyMedian (l : List ℚ) : ℚ :=
  let s := pySorted l
  let n := l.length
  if n % 2 = 1 then s.getD (n / 2) 0
  else (s.getD (n / 2 - 1) 0 + s.getD (n / 2) 0) / 2

/-- Python's `int(x)` for a non-negative float: truncation (= floor). -/
def pyIntTrunc (x : ℚ) : ℕ := x.num.toNat / x.den

/-! ## Oracle (base_oracle.py / okx_oracle_feed.py)

A stored trade is `(ts_ms, px, qty)` exactly as in `self.trades`. -/

/-- State of `Oracle` (base_oracle.py lines 21-45).  `last_price` and
`usdt_usd_price` start as NaN (`none`); `start_time` starts as Python `None`
(`none`) and holds seconds (`time.time()`). -/
structure OracleState where
  trading_pairs : List String
  window : ℚ
  startup_window : ℚ
  min_notional : ℚ
  trades : List (ℤ × ℚ × ℚ)
  last_pub : ℚ
  last_trade_ts : ℤ
  last_price : Option ℚ
  usdt_usd_price : Option ℚ
  start_time : Option ℚ
  base_currency : String
  deriving DecidableEq, Repr

/-- `Oracle.__init__` (base_oracle.py lines 21-45).  The separator is chosen
by indexing `trading_pairs[0]` (line 44) before the `if trading_pairs`
guard on line 45 is reached, so an empty list raises `IndexError`; the
`"UNKNOWN"` fallback sits in the dead `else` branch. -/
def Oracle.init (trading_pairs : List String) (window_sec startup_window_sec min_notional : ℚ) :
    Except PyErr OracleState :=
  match trading_pairs.head? with
  | none => .error .indexError
  | some p0 =>
    let separator := if p0.contains '-' then "-" else "_"
    let base_currency :=
      if trading_pairs ≠ [] then (p0.splitOn separator).getD 0 "" else "UNKNOWN"
    .ok { trading_pairs := trading_pairs
          window := window_sec
          startup_window := startup_window_sec
          min_notional := min_notional
          trades := []
          last_pub := 0
          last_trade_ts := 0
          last_price := none
          usdt_usd_price := none
          start_time := none
          base_currency := base_currency }

/-- The `min_notional` block of `Oracle.update_parameters`
(base_oracle.py lines 86-89). -/
def Oracle.updateMinNotional (s : OracleState) (min_notional : Option ℚ) :
    OracleState × Option PyErr :=
  match min_notional with
  | some mn =>
    if ¬ 0 ≤ mn then (s, some .valueError)
    else ({ s with min_notional := mn }, none)
  | none => (s, none)

/-- The `startup_window_sec` block of `Oracle.update_parameters`
(base_oracle.py lines 81-84), followed by the `min_notional` block. -/
def Oracle.updateStartup (s : OracleState) (startup_window_sec min_notional : Option ℚ) :
    OracleState × Option PyErr :=
  match startup_window_sec with
  | some su =>
    if ¬ 0 ≤ su then (s, some .valueError)
    else Oracle.updateMinNotional { s with startup_window := su } min_notional
  | none => Oracle.updateMinNotional s min_notional

/-- `Oracle.update_parameters` (base_oracle.py lines 52-89).  The Python
method validates and applies each supplied parameter in turn and raises
`ValueError` at the first invalid one, leaving `self` as mutated so far; the
model returns the mutated state together with the raised error, if any.
(`isinstance` checks are vacuous here since all inputs are rationals.)
Note the eviction after a window shrink keeps `trade[0] >= cutoff` with the
cutoff computed from the new window (lines 71-75). -/
def Oracle.update_parameters (s : OracleState) (now : ℤ)
    (window_sec startup_window_sec min_notional : Option ℚ) :
    OracleState × Option PyErr :=
  match window_sec with
  | some w =>
    if ¬ 0 < w then (s, some .valueError)
    else
      let cutoff : ℚ := (now : ℚ) - w * 1000
      let s1 : OracleState :=
        { s with window := w
                 trades := if w < s.window
                           then s.trades.filter (fun t => cutoff ≤ (t.1 : ℚ))
                           else s.trades }
      Oracle.updateStartup s1 startup_window_sec min_notional
  | none => Oracle.updateStartup s startup_window_sec min_notional

/-- Python's `str.endswith(suffix)`, written so that it evaluates by kernel
reduction (Lean's own `String.endsWith` is compiled by well-founded
recursion and does not reduce). -/
def pyEndsWith (s suffix : String) : Bool := suffix.data.isSuffixOf s.data

/-- The conversion-and-filter part of `Oracle.add_trade` (base_oracle.py
lines 101-111): the stored trade `(ts_ms, usd_px, qty)`, or `none` when the
trade is dropped (USDT pair with the rate still NaN, or notional below
`min_notional`). -/
def storedTrade (usdt_usd_price : Option ℚ) (min_notional : ℚ) (pair : String)
    (ts_ms : ℤ) (px qty : ℚ) : Option (ℤ × ℚ × ℚ) :=
  (if pyEndsWith pair "-USDT" || pyEndsWith pair "_USDT"
   then usdt_usd_price.map (fun r => px * r)
   else some px).bind
    (fun usd_px => if usd_px * qty < min_notional then none else some (ts_ms, usd_px, qty))

/-- `Oracle.add_trade` (base_oracle.py lines 91-118): USDT→USD conversion
(skipping the trade when the rate is NaN), notional filter, append, then the
`while ... pop(0)` eviction of trades older than `now - window * 1000`. -/
def Oracle.add_trade (s : OracleState) (pair : String) (ts_ms : ℤ) (px qty : ℚ)
    (now : ℤ) : OracleState :=
  (storedTrade s.usdt_usd_price s.min_notional pair ts_ms px qty).elim s
    (fun tr =>
      let cutoff : ℚ := (now : ℚ) - s.window * 1000
      { s with
        trades := (s.trades ++ [tr]).dropWhile (fun t => (t.1 : ℚ) < cutoff)
        last_trade_ts := ts_ms })

/-- `vol = sum(q for _, _, q in self.trades)` (base_oracle.py line 145). -/
def tradesVol (trades : List (ℤ × ℚ × ℚ)) : ℚ := (trades.map (fun t => t.2.2)).sum

/-- `vwap = sum(px * q for _, px, q in self.trades) / vol` (line 147). -/
def tradesVwap (trades : List (ℤ × ℚ × ℚ)) : ℚ :=
  (trades.map (fun t => t.2.1 * t.2.2)).sum / tradesVol trades

/-- `core = prices[len(prices) // 10 : -len(prices) // 10 or None]`
(line 153) over the sorted prices.  In Python `-len(prices) // 10` is
`-ceil(len/10)`, so for `len > 4` the slice end is `len - ceil(len/10)` and
the `or None` branch (taken only for `len = 0`) is unreachable. -/
def trimmedCore (trades : List (ℤ × ℚ × ℚ)) : List ℚ :=
  let prices := pySorted (trades.map (fun t => t.2.1))
  let l := prices.length
  (prices.drop (l / 10)).take (l - (l + 9) / 10 - l / 10)

/-- The denominator of the trimmed-VWAP division (lines 154-156): the
quantity sum of the trades whose price is a member of `core`.  When it is 0
the Python division raises `ZeroDivisionError`. -/
def trimmedQsum (trades : List (ℤ × ℚ × ℚ)) : ℚ :=
  ((trades.filter (fun t => t.2.1 ∈ trimmedCore trades)).map (fun t => t.2.2)).sum

/-- The value of the trimmed-VWAP division of lines 154-156: VWAP over the
trades whose price is a member of `core`.  Meaningful only when
`trimmedQsum trades ≠ 0`; `computeVwap` guards that division. -/
def trimmedVwap (trades : List (ℤ × ℚ × ℚ)) : ℚ :=
  let core := trimmedCore trades
  ((trades.filter (fun t => t.2.1 ∈ core)).map (fun t => t.2.1 * t.2.2)).sum /
    ((trades.filter (fun t => t.2.1 ∈ core)).map (fun t => t.2.2)).sum

/-- The price computation of `Oracle.compute` once trades are present and
total volume is positive (lines 144-157): the plain VWAP, trimmed when it
deviates from the median of trade prices by more than 3% and there are more
than 4 trades.  Python evaluates `abs(vwap - med) / med` (line 150) before
the trade-count test, and float division by zero raises, so a zero median of
the in-window trade prices raises `ZeroDivisionError` regardless of the
trade count; in the trim branch the division of lines 154-156 raises
`ZeroDivisionError` when the core trades' quantity sum is 0. -/
def computeVwap (trades : List (ℤ × ℚ × ℚ)) : Except PyErr ℚ :=
  let vwap := tradesVwap trades
  let med := pyMedian (trades.map (fun t => t.2.1))
  if med = 0 then .error .zeroDivisionError
  else if 3 / 100 < |vwap - med| / med ∧ 4 < trades.length then
    if trimmedQsum trades = 0 then .error .zeroDivisionError
    else .ok (trimmedVwap trades)
  else .ok vwap

/-- The startup-window test of `Oracle.compute` (base_oracle.py lines
133-135): true when `start_time` is set and
`now / 1000 - start_time < startup_window`. -/
def startupFlag (s : OracleState) (now : ℤ) : Bool :=
  match s.start_time with
  | some st => decide ((now : ℚ) / 1000 - st < s.startup_window)
  | none => false

/-- `Oracle.compute` (base_oracle.py lines 120-163).  On success returns the
price, the metadata dict (in insertion order) and the state after the
`self.last_price = price` mutation; `none` is NaN.  Note the startup branch
returns before `meta["ts"]` is set, so its metadata has no `ts` key.  When
the price branch raises `ZeroDivisionError` (see `computeVwap`) the call
returns nothing — the exception propagates before `self.last_price` is
assigned, leaving the oracle state unchanged. -/
def Oracle.compute (s : OracleState) (now : ℤ) (fallback_mid : Option ℚ) :
    Except PyErr (Option ℚ × Meta × OracleState) :=
  if startupFlag s now then
    .ok (none,
     [("stale", .b false), ("window", .q s.window), ("trades", .n s.trades.length),
      ("startup", .b true)], s)
  else
    let stale : Bool := decide (5000 < now - s.last_trade_ts)
    let meta0 : Meta :=
      [("stale", .b stale), ("window", .q s.window), ("trades", .n s.trades.length),
       ("startup", .b false)]
    if s.trades ≠ [] ∧ 0 < tradesVol s.trades then
      match computeVwap s.trades with
      | .error e => .error e
      | .ok p =>
        .ok (some p, meta0 ++ [("ts", .i now)], { s with last_price := some p })
    else
      let price := fallback_mid.orElse (fun _ => s.last_price)
      .ok (price, meta0 ++ [("degraded", .b true), ("ts", .i now)],
       { s with last_price := price })

/-! ## OkxFeed (okx_feed.py)

The legacy OKX feed keeps `self.feed` (a deque of `[price, size, timestamp]`
trades), `self.price` (the incrementally maintained volume-weighted price,
NaN when the feed is empty) and `self.size` (total size).  Times are
milliseconds since the epoch (`datetime` in the source). -/

/-- One trade of the legacy feed: `[price, size, timestamp]`. -/
structure FTrade where
  px : ℚ
  qty : ℚ
  ts : ℤ
  deriving DecidableEq, Repr

/-- The windowing state of `OkxFeed` (okx_feed.py lines 40-42). -/
structure FeedState where
  feed : List FTrade
  price : Option ℚ
  size : ℚ
  deriving DecidableEq, Repr

/-- `OkxFeed.recalculate_on_append` (okx_feed.py lines 73-81). -/
def OkxFeed.recalculate_on_append (t : FTrade) (s : FeedState) : FeedState :=
  match s.price with
  | none => { s with price := some t.px, size := t.qty }
  | some p =>
    let new_size := s.size + t.qty
    { s with price := some ((p * s.size + t.px * t.qty) / new_size), size := new_size }

/-- `OkxFeed.recalculate_on_pop` (okx_feed.py lines 83-97): sizes 1 and 2 are
special-cased; for more trades the head's contribution is subtracted.  The
source raises `ValueError` on an empty feed; the eviction loop never calls it
there, so the model returns the state unchanged in that case.  (A NaN
`self.price` with a non-empty feed propagates as NaN, hence the `Option.map`.) -/
def OkxFeed.recalculate_on_pop (s : FeedState) : FeedState :=
  match s.feed with
  | [] => s
  | [_] => { s with price := none, size := 0 }
  | [_, b] => { s with price := some b.px, size := b.qty }
  | t :: _ :: _ :: _ =>
    let new_size := s.size - t.qty
    { s with price := s.price.map (fun p => (p * s.size - t.px * t.qty) / new_size)
             size := new_size }

/-- The eviction loop of `OkxFeed.__call__` (okx_feed.py lines 123-136),
`while self.feed[0][2] < now - self.window_length: recalculate_on_pop();
popleft()`, written as structural recursion on the deque. -/
def OkxFeed.evictGo (cutoff : ℤ) : List FTrade → Option ℚ → ℚ → FeedState
  | [], price, size => ⟨[], price, size⟩
  | t :: rest, price, size =>
    if t.ts < cutoff then
      let s' := OkxFeed.recalculate_on_pop ⟨t :: rest, price, size⟩
      OkxFeed.evictGo cutoff rest s'.price s'.size
    else ⟨t :: rest, price, size⟩

/-- The eviction loop applied to a feed state. -/
def OkxFeed.evict (cutoff : ℤ) (s : FeedState) : FeedState :=
  OkxFeed.evictGo cutoff s.feed s.price s.size

/-- Processing one trade message in `OkxFeed.__call__` (okx_feed.py lines
120-165): evict old trades (only if the feed is non-empty), then
`recalculate_on_append` and append the new trade. -/
def OkxFeed.step (windowMs : ℤ) (s : FeedState) (now : ℤ) (t : FTrade) : FeedState :=
  let s1 := if s.feed.isEmpty then s else OkxFeed.evict (now - windowMs) s
  let s2 := OkxFeed.recalculate_on_append t s1
  { s2 with feed := s1.feed ++ [t] }

/-- One incoming trade event: wall-clock arrival time and the trade. -/
structure FeedEvent where
  now : ℤ
  trade : FTrade
  deriving DecidableEq, Repr

/-- The initial `OkxFeed` windowing state (okx_feed.py lines 40-42). -/
def OkxFeed.initState : FeedState := { feed := [], price := none, size := 0 }

/-- Run the feed over a sequence of trade events. -/
def OkxFeed.run (windowMs : ℤ) (events : List FeedEvent) : FeedState :=
  events.foldl (fun s e => OkxFeed.step windowMs s e.now e.trade) OkxFeed.initState

/-- Total quantity of a trade list. -/
def qsum (l : List FTrade) : ℚ := (l.map (fun t => t.qty)).sum

/-- Direct (brute-force) volume-weighted average price of a trade list:
`Σ(price_i × qty_i) / Σ(qty_i)`. -/
def vwapOf (l : List FTrade) : ℚ := (l.map (fun t => t.px * t.qty)).sum / qsum l

/-! ## PriceAggregator (price_aggregator.py) -/

/-- `aggregation_method`; `unknown` stands for any other string, on which
aggregation raises `ValueError` (price_aggregator.py line 115). -/
inductive AggMethod where
  | volume_weighted
  | median
  | simple_average
  | unknown
  deriving DecidableEq, Repr

/-- One entry of `valid_prices` (price_aggregator.py lines 75-80): feed name,
valid (non-NaN) price, and the trade count from the metadata. -/
structure ValidPrice where
  feed : String
  price : ℚ
  trades : ℕ
  deriving DecidableEq, Repr

/-- Aggregator configuration (price_aggregator.py lines 16-43). -/
structure AggConfig where
  min_valid_feeds : ℕ
  aggregation_method : AggMethod
  max_single_feed_weight : ℚ
  volume_spike_threshold : ℚ
  volume_history_length : ℕ
  deriving Repr

/-- Python's `statistics.mean` over a list of floats. -/
def pyMean (l : List ℚ) : ℚ := l.sum / l.length

/-- Per-feed volume history, keyed by feed name (the `volume_history`
deques). -/
abbrev VolumeHistory := List (String × List ℕ)

/-- Append a trade count to one feed's bounded history
(`self.volume_history[feed_name].append(trade_count)`, line 83; the deque
keeps the last `volume_history_length` entries). -/
def pushHistory (maxLen : ℕ) (h : VolumeHistory) (feed : String) (n : ℕ) : VolumeHistory :=
  h.map (fun p => if p.1 = feed then (p.1, (p.2 ++ [n]).reverse.take maxLen |>.reverse) else p)

/-- The volume-spike cap for one feed (price_aggregator.py lines 156-176):
if the feed has more than 3 history samples and the current count exceeds
`volume_spike_threshold ×` the mean of the history excluding the current
sample, the count is capped to `int(avg_volume * threshold)`. -/
def spikeCap (thr : ℚ) (hist : VolumeHistory) (vp : ValidPrice) : ValidPrice :=
  match hist.lookup vp.feed with
  | some h =>
    if 3 < h.length then
      let avg_volume := pyMean (h.dropLast.map (fun n => (n : ℚ)))
      if 0 < avg_volume ∧ avg_volume * thr < (vp.trades : ℚ)
      then { vp with trades := pyIntTrunc (avg_volume * thr) }
      else vp
    else vp
  | none => vp

/-- The weight cap applied to one feed (price_aggregator.py lines 181-195):
`total` is the trade-count sum computed once before the loop; a feed whose
`natural_weight` exceeds `max_single_feed_weight` has its count replaced by
`int(total_trades * max_single_feed_weight)`. -/
def capOne (maxW : ℚ) (total : ℕ) (vp : ValidPrice) : ValidPrice :=
  if maxW < (vp.trades : ℚ) / (total : ℚ)
  then { vp with trades := pyIntTrunc ((total : ℚ) * maxW) }
  else vp

/-- The in-place loop of step 3 (price_aggregator.py lines 181-198): each
entry is capped with `capOne`, and after each mutation
`price_data["adjusted_weight"] = trades / sum(p["trades"] for p in
valid_prices)` recomputes the sum over the partially capped list — raising
`ZeroDivisionError` when that sum is zero. -/
def capLoop (maxW : ℚ) (total : ℕ) (done : List ValidPrice) :
    List ValidPrice → Except PyErr (List ValidPrice)
  | [] => .ok done
  | x :: rest =>
    let x' := capOne maxW total x
    let curSum := (done.map (fun p => p.trades)).sum + x'.trades
        + (rest.map (fun p => p.trades)).sum
    if curSum = 0 then .error .zeroDivisionError
    else capLoop maxW total (done ++ [x']) rest

/-- Step 3 of `_apply_manipulation_protections` (lines 178-200): the cap loop
runs only when the pre-cap total is positive. -/
def weightCapStep (maxW : ℚ) (vps : List ValidPrice) : Except PyErr (List ValidPrice) :=
  let total := (vps.map (fun p => p.trades)).sum
  if 0 < total then capLoop maxW total [] vps else .ok vps

/-- `PriceAggregator._apply_manipulation_protections` (lines 127-200).
Step 1 computes each feed's deviation from the median price — a pure logging
step, except that the division raises `ZeroDivisionError` when the median is
zero.  `hist` is the volume history after the current counts were appended
(line 83 runs during collection, before the protections). -/
def apply_manipulation_protections (cfg : AggConfig) (hist : VolumeHistory)
    (vps : List ValidPrice) : Except PyErr (List ValidPrice) :=
  if vps.length < 2 then .ok vps
  else
    if pyMedian (vps.map (fun p => p.price)) = 0 then .error .zeroDivisionError
    else
      let vps2 := vps.map (spikeCap cfg.volume_spike_threshold hist)
      weightCapStep cfg.max_single_feed_weight vps2

/-- `PriceAggregator._volume_weighted_average` (lines 202-212), falling back
to the simple average when the total trade count is zero. -/
def volume_weighted_average (vps : List ValidPrice) : Except PyErr ℚ :=
  let total := (vps.map (fun p => p.trades)).sum
  if total = 0 then
    if vps.length = 0 then .error .zeroDivisionError
    else .ok (pyMean (vps.map (fun p => p.price)))
  else .ok (((vps.map (fun p => p.price * (p.trades : ℚ))).sum) / (total : ℚ))

/-- What one configured feed produced this cycle: `none` when `get_price`
raised or returned `None`/NaN, otherwise the valid price and the `trades`
metadata entry (`meta.get("trades", 0)`). -/
abbrev FeedOutcome := Option (ℚ × ℕ)

/-- `PriceAggregator.get_aggregated_price` (lines 53-125) on one cycle's feed
outcomes.  Returns `.ok none` for NaN (fewer than `min_valid_feeds` valid
feeds), `.ok (some p)` for a real price, `.error` when the Python raises. -/
def get_aggregated_price (cfg : AggConfig) (hist0 : VolumeHistory)
    (outcomes : List (String × FeedOutcome)) : Except PyErr (Option ℚ) :=
  let valid : List ValidPrice :=
    outcomes.filterMap (fun o => o.2.map (fun v => ⟨o.1, v.1, v.2⟩))
  let hist := valid.foldl
    (fun h vp => pushHistory cfg.volume_history_length h vp.feed vp.trades) hist0
  if valid.length < cfg.min_valid_feeds then .ok none
  else
    match apply_manipulation_protections cfg hist valid with
    | .error e => .error e
    | .ok vps =>
      match cfg.aggregation_method with
      | .volume_weighted => (volume_weighted_average vps).map some
      | .median =>
        if vps.length = 0 then .error .statisticsError
        else .ok (some (pyMedian (vps.map (fun p => p.price))))
      | .simple_average =>
        if vps.length = 0 then .error .zeroDivisionError
        else .ok (some (pyMean (vps.map (fun p => p.price))))
      | .unknown => .error .valueError

/-! ## Feed adapters: subscription handlers and `get_price` shapes -/

/-- The subscribe-event handler of `okx_ws` (okx_oracle_feed.py lines
200-206): `start_time` is set only when it is still `None`.  (The Gate.io and
KuCoin adapters guard identically.)  `now` is `time.time()` in seconds. -/
def okxWs.onSubscribe (s : OracleState) (now : ℚ) : OracleState :=
  if s.start_time.isNone then { s with start_time := some now } else s

/-- The connection-level state of the legacy `OkxFeed` relevant to startup:
`self.starttime`, initialised to the Unix epoch (okx_feed.py line 39). -/
structure OkxFeedConn where
  starttime : ℤ
  deriving DecidableEq, Repr

/-- The subscribe-event branch of `OkxFeed.__call__` (okx_feed.py lines
105-115): `self.starttime = datetime.utcnow()` unconditionally, on every
subscribe event. -/
def OkxFeed.onSubscribe (f : OkxFeedConn) (now : ℤ) : OkxFeedConn :=
  { f with starttime := now }

/-- A dynamically-typed Python return value of a `get_price`-like call:
either a bare float or a `(price, metadata)` pair. -/
inductive PyRet where
  | num (p : Option ℚ)
  | pair (p : Option ℚ) (m : Meta)
  deriving DecidableEq, Repr

/-- The fallback mid-price computed from `book_mids` by both
`BaseOracleFeed.get_price` (base_oracle.py lines 245-262) and
`OkxOracleFeed.get_price` (okx_oracle_feed.py lines 328-345). -/
def fallbackMid (book_mids : List (ℚ × ℚ)) : Option ℚ :=
  if book_mids.isEmpty then none
  else
    let total := (book_mids.map (fun b => b.2)).sum
    if 0 < total then some ((book_mids.map (fun b => b.1 * b.2)).sum / total)
    else if book_mids.map (fun b => b.1) = [] then none
    else some (pyMean (book_mids.map (fun b => b.1)))

/-- `Oracle.compute`'s returned value as a Python value: a
`(price, metadata)` pair when the call returns, the propagated exception
otherwise. -/
def Oracle.computeRet (s : OracleState) (now : ℤ) (fallback_mid : Option ℚ) :
    Except PyErr PyRet :=
  match Oracle.compute s now fallback_mid with
  | .error e => .error e
  | .ok r => .ok (.pair r.1 r.2.1)

/-- `BaseOracleFeed.get_price` (base_oracle.py lines 245-262): returns the
pair `(price, meta)` from `compute` (or propagates its exception). -/
def BaseOracleFeed.get_price (s : OracleState) (book_mids : List (ℚ × ℚ)) (now : ℤ) :
    Except PyErr PyRet :=
  match Oracle.compute s now (fallbackMid book_mids) with
  | .error e => .error e
  | .ok r => .ok (.pair r.1 r.2.1)

/-- `OkxOracleFeed.get_price` (okx_oracle_feed.py lines 328-345): computes
`price, meta = self.oracle.compute(...)` but `return price` — a bare float,
not a pair (or propagates the exception). -/
def OkxOracleFeed.get_price (s : OracleState) (book_mids : List (ℚ × ℚ)) (now : ℤ) :
    Except PyErr PyRet :=
  match Oracle.compute s now (fallbackMid book_mids) with
  | .error e => .error e
  | .ok r => .ok (.num r.1)

/-- Whether a Python value is a `(price, metadata)` pair whose metadata has
at least the keys `stale`, `trades` and `startup`. -/
def isPriceMetaPair : PyRet → Bool
  | .pair _ m =>
    (m.lookup "stale").isSome && (m.lookup "trades").isSome && (m.lookup "startup").isSome
  | .num _ => false

/-- A metadata dict with its `ts` entry removed, for comparing two metadata
dicts "except for the timestamp field". -/
def metaDropTs (m : Meta) : Meta := m.filter (fun kv => kv.1 ≠ "ts")

/-! ## Event sequences for the sliding-window invariant -/

/-- One call to `Oracle.add_trade`: the wall clock `now` (ms) at the call and
the call's arguments. -/
structure OracleEvent where
  now : ℤ
  pair : String
  ts : ℤ
  px : ℚ
  qty : ℚ
  deriving DecidableEq, Repr

/-- Feed a sequence of trades to an `Oracle` through `add_trade`. -/
def Oracle.runTrades (s : OracleState) (events : List OracleEvent) : OracleState :=
  events.foldl (fun s e => Oracle.add_trade s e.pair e.ts e.px e.qty e.now) s

/-- The trade `Oracle.add_trade` would store for an event, given the oracle's
(constant along a run) conversion rate and notional floor. -/
def storedOf (s0 : OracleState) (e : OracleEvent) : Option (ℤ × ℚ × ℚ) :=
  storedTrade s0.usdt_usd_price s0.min_notional e.pair e.ts e.px e.qty

/-- A well-formed `add_trade` call sequence: trade timestamps strictly
increase, the wall clock is monotone, and every trade passes the
conversion/notional filter, carries positive quantity, and is inside the
window at its arrival (`now - window*1000 ≤ ts ≤ now`, in ms). -/
def OracleEventsOk (s0 : OracleState) (events : List OracleEvent) : Prop :=
  events.Pairwise (fun a b => a.ts < b.ts) ∧
  events.Pairwise (fun a b => a.now ≤ b.now) ∧
  ∀ e ∈ events, (storedOf s0 e).isSome ∧ 0 < e.qty ∧
    e.ts ≤ e.now ∧ (e.now : ℚ) - s0.window * 1000 ≤ (e.ts : ℚ)

/-- A well-formed legacy-feed event sequence: trade timestamps strictly
increase, the wall clock is monotone, every trade has positive size and is
inside the window at its arrival. -/
def FeedEventsOk (windowMs : ℤ) (events : List FeedEvent) : Prop :=
  events.Pairwise (fun a b => a.trade.ts < b.trade.ts) ∧
  events.Pairwise (fun a b => a.now ≤ b.now) ∧
  ∀ e ∈ events, 0 < e.trade.qty ∧ e.trade.ts ≤ e.now ∧ e.now - windowMs ≤ e.trade.ts

instance (s0 : OracleState) (events : List OracleEvent) :
    Decidable (OracleEventsOk s0 events) := by
  unfold OracleEventsOk
  infer_instance

instance (windowMs : ℤ) (events : List FeedEvent) :
    Decidable (FeedEventsOk windowMs events) := by
  unfold FeedEventsOk
  infer_instance

/-- The running-aggregate invariant of the legacy feed's window: `size` is
the total quantity, and `price` is NaN on an empty window and the direct
volume-weighted average otherwise. -/
def FeedWindowInv (s : FeedState) : Prop :=
  s.size = qsum s.feed ∧
  (s.feed = [] → s.price = none ∧ s.size = 0) ∧
  (s.feed ≠ [] → s.price = some (vwapOf s.feed))

/-! ## Concrete fixtures used by witnesses and counterexamples -/

/-- An `Oracle` state with the given trades and timing fields; the remaining
fields are as left by `Oracle.__init__(["XCH-USDT"], ...)`. -/
def mkOracle (trades : List (ℤ × ℚ × ℚ)) (window startup_window : ℚ)
    (start_time : Option ℚ) (last_trade_ts : ℤ) : OracleState :=
  { trading_pairs := ["XCH-USDT"]
    window := window
    startup_window := startup_window
    min_notional := 10
    trades := trades
    last_pub := 0
    last_trade_ts := last_trade_ts
    last_price := none
    usdt_usd_price := none
    start_time := start_time
    base_currency := "XCH" }

/-- Five trades, four at price 100 (quantity 1) and one 10x outlier at price
1000 with small quantity 1/10 — the §8 outlier-trimming scenario. -/
def outlierTrades : List (ℤ × ℚ × ℚ) :=
  [(0, 100, 1), (1, 100, 1), (2, 100, 1), (3, 100, 1), (4, 1000, 1/10)]

/-- The §8 outlier scenario as an oracle state, past its startup window. -/
def outlierOracle : OracleState := mkOracle outlierTrades 3600 0 (some 0) 4

/-- A state with one in-window trade, used by the idempotence claim: the
startup window is 5 s, so a call at `now = 1000` ms is still gated while a
call at `now = 10000` ms is not (and is also stale). -/
def idemOracle : OracleState := mkOracle [(0, 100, 1)] 3600 5 (some 0) 0

/-- The default aggregator configuration of the source
(price_aggregator.py lines 16-24). -/
def defaultAggConfig : AggConfig :=
  { min_valid_feeds := 2
    aggregation_method := .volume_weighted
    max_single_feed_weight := 6/10
    volume_spike_threshold := 3
    volume_history_length := 20 }

/-- Fresh (empty) volume history for two feeds. -/
def twoFeedHist : VolumeHistory := [("A", []), ("B", [])]

/-- Fresh (empty) volume history for three feeds. -/
def threeFeedHist : VolumeHistory := [("A", []), ("B", []), ("C", [])]

/-- A state with one trade and a 900 s startup window started at time 0,
used to exercise the startup gate on both sides of the threshold. -/
def gateOracle : OracleState := mkOracle [(1, 100, 1)] 3600 900 (some 0) 1

/-- A state whose in-window trade prices have median 0 while total volume is
positive: a trade at price −10 with quantity −1 (Python notional
`(-10)*(-1) = 10` passes the default `min_notional = 10` floor) and a trade
at price 10 with quantity 2.  Past its startup window, `compute` on this
state reaches `abs(vwap - med) / med` with `med = 0` and raises
`ZeroDivisionError`. -/
def medZeroOracle : OracleState := mkOracle [(0, -10, -1), (1, 10, 2)] 3600 0 (some 0) 1

/-! # Theorems -/

/-- Claim C10: constructing an `Oracle` with an empty `trading_pairs` list
raises `IndexError`: the separator is chosen by indexing `trading_pairs[0]`
before the emptiness guard on the next line, so the documented `"UNKNOWN"`
fallback is unreachable (every successful construction takes the split
branch) and construction is defined only for non-empty `trading_pairs`. -/
theorem oracle_init_empty_raises_index_error :
    (∀ w su mn, Oracle.init [] w su mn = .error .indexError) ∧
    (∀ p ps w su mn, ∃ s, Oracle.init (p :: ps) w su mn = .ok s ∧
      s.base_currency = (p.splitOn (if p.contains '-' then "-" else "_")).getD 0 "") ∧
    (∀ pairs w su mn s, Oracle.init pairs w su mn = Except.ok s → pairs ≠ []) := by
  refine ⟨fun w su mn => rfl, ?_, ?_⟩
  · intro p ps w su mn
    refine ⟨_, rfl, ?_⟩
    simp [Oracle.init]
  · intro pairs w su mn s h hnil
    subst hnil
    simp [Oracle.init] at h

/-- Claim C8 (counterexample): `OkxOracleFeed.get_price` returns a bare
price, not a `(price, metadata)` pair with `stale`/`trades`/`startup` keys. -/
theorem okx_oracle_feed_get_price_bare_cex :
    OkxOracleFeed.get_price idemOracle [(50, 2)] 10000 = .ok (.num (some 100)) ∧
    isPriceMetaPair (.num (some 100)) = false := by
  exact ⟨by decide, by decide⟩

/-- Helper for claim C8: every metadata dict a returning `Oracle.compute`
call produces has the keys `stale`, `trades` and `startup`. -/
lemma compute_meta_has_keys (s : OracleState) (now : ℤ) (fb : Option ℚ)
    (r : Option ℚ × Meta × OracleState) (h : Oracle.compute s now fb = .ok r) :
    (r.2.1.lookup "stale").isSome = true ∧
    (r.2.1.lookup "trades").isSome = true ∧
    (r.2.1.lookup "startup").isSome = true := by
  rw [Oracle.compute] at h
  split at h
  · injection h with h
    subst h
    exact ⟨rfl, rfl, rfl⟩
  · dsimp only at h
    split at h
    · cases hcv : computeVwap s.trades with
      | error e => rw [hcv] at h; exact absurd h (by simp)
      | ok p =>
        rw [hcv] at h
        dsimp only at h
        injection h with h
        subst h
        exact ⟨rfl, rfl, rfl⟩
    · injection h with h
      subst h
      exact ⟨rfl, rfl, rfl⟩

/-- Claim C8 (amended): whenever `Oracle.compute` returns (it raises
`ZeroDivisionError` at zero price-median states, see `computeVwap`), its
result — and hence `BaseOracleFeed.get_price`'s — is a `(price, metadata)`
pair whose metadata contains at least the keys `stale`, `trades` and
`startup`; `OkxOracleFeed.get_price`, by contrast, returns the bare price
(see the counterexample). -/
theorem get_price_returns_price_meta_pair (s : OracleState) (now : ℤ) (fb : Option ℚ)
    (book_mids : List (ℚ × ℚ)) :
    (∀ r, Oracle.computeRet s now fb = .ok r → isPriceMetaPair r = true) ∧
    (∀ r, BaseOracleFeed.get_price s book_mids now = .ok r → isPriceMetaPair r = true) := by
  constructor
  · intro r h
    rw [Oracle.computeRet] at h
    cases hc : Oracle.compute s now fb with
    | error e => rw [hc] at h; exact absurd h (by simp)
    | ok x =>
      rw [hc] at h
      dsimp only at h
      injection h with h
      subst h
      have hk := compute_meta_has_keys s now fb x hc
      simp [isPriceMetaPair, hk.1, hk.2.1, hk.2.2]
  · intro r h
    rw [BaseOracleFeed.get_price] at h
    cases hc : Oracle.compute s now (fallbackMid book_mids) with
    | error e => rw [hc] at h; exact absurd h (by simp)
    | ok x =>
      rw [hc] at h
      dsimp only at h
      injection h with h
      subst h
      have hk := compute_meta_has_keys s now (fallbackMid book_mids) x hc
      simp [isPriceMetaPair, hk.1, hk.2.1, hk.2.2]

/-- Claim C7 (counterexample): the legacy `OkxFeed` resets `starttime` on
every subscribe event — a second subscription at time 2000 overwrites the
value 1000 recorded by the first. -/
theorem okxfeed_starttime_reset_cex :
    (OkxFeed.onSubscribe (OkxFeed.onSubscribe ⟨0⟩ 1000) 2000).starttime = 2000 ∧
    (OkxFeed.onSubscribe ⟨0⟩ 1000).starttime = 1000 ∧ (2000 : ℤ) ≠ 1000 :=
  ⟨rfl, rfl, by decide⟩

/-- Helper for claim C7: once `start_time` is set, further subscribe events
in the `okx_ws` adapter never change it. -/
lemma okxWs_onSubscribe_keeps (x : ℚ) :
    ∀ (ts : List ℚ) (s : OracleState), s.start_time = some x →
      (ts.foldl okxWs.onSubscribe s).start_time = some x := by
  intro ts
  induction ts with
  | nil => intro s h; simpa using h
  | cons t rest ih =>
    intro s h
    have : (okxWs.onSubscribe s t).start_time = some x := by
      simp [okxWs.onSubscribe, h]
    simpa using ih _ this

/-- Claim C7 (amended): in the `okx_ws` adapter (and the identically guarded
Gate.io/KuCoin adapters) the first subscribe event sets `start_time` and no
later subscribe event ever changes it; the legacy `OkxFeed`, however, resets
its `starttime` on every subscribe event (see the counterexample). -/
theorem okx_ws_starttime_set_once (s : OracleState) (t : ℚ) (ts : List ℚ)
    (h : s.start_time = none) :
    ((t :: ts).foldl okxWs.onSubscribe s).start_time = some t := by
  have h1 : (okxWs.onSubscribe s t).start_time = some t := by
    simp [okxWs.onSubscribe, h]
  simpa using okxWs_onSubscribe_keeps t ts _ h1

/-- Claim C7 (witness): a concrete three-subscription run keeps the first
timestamp. -/
theorem okx_ws_starttime_set_once_witness :
    (([100, 200, 300] : List ℚ).foldl okxWs.onSubscribe (mkOracle [] 5 900 none 0)).start_time
      = some 100 :=
  okx_ws_starttime_set_once (mkOracle [] 5 900 none 0) 100 [200, 300] rfl

/-- Claim C5: with three configured feeds and `min_valid_feeds = 2`, one
valid feed yields NaN; three valid feeds yield the §8 end-to-end value 101;
but two valid feeds with trade counts 1 and 0 crash with
`ZeroDivisionError` inside the weight-capping loop (the capped count
`int(1 * 0.6) = 0` makes the recomputed trade-count sum zero), instead of
returning a real number as the spec requires. -/
theorem aggregator_min_feeds_and_zero_division :
    get_aggregated_price defaultAggConfig threeFeedHist
        [("A", some (100, 1)), ("B", none), ("C", none)] = .ok none ∧
    get_aggregated_price defaultAggConfig threeFeedHist
        [("A", some (100, 50)), ("B", some (102, 50)), ("C", some (101, 50))]
      = .ok (some 101) ∧
    get_aggregated_price defaultAggConfig threeFeedHist
        [("A", some (100, 1)), ("B", some (101, 0)), ("C", none)]
      = .error .zeroDivisionError := by
  exact ⟨by decide, by decide, by decide⟩

/-- Claim C2 (counterexample): with feed A at 900 trades and feed B at 100
and `max_single_feed_weight = 0.6`, A is capped to `int(1000 * 0.6) = 600`
— but the weighted average then uses denominator 700, so A's effective
weight is `600/700 ≈ 85.7%`, far above 60% even with generous rounding
slack. -/
theorem weight_cap_effective_weight_cex :
    apply_manipulation_protections defaultAggConfig
        [("A", [900]), ("B", [100])] [⟨"A", 100, 900⟩, ⟨"B", 101, 100⟩]
      = .ok [⟨"A", 100, 600⟩, ⟨"B", 101, 100⟩] ∧
    ¬ ((600 : ℚ) / (600 + 100) ≤ 6 / 10 + 1 / 10) ∧
    get_aggregated_price defaultAggConfig twoFeedHist
        [("A", some (100, 900)), ("B", some (101, 100))] = .ok (some (701 / 7)) := by
  exact ⟨by decide, by decide, by decide⟩

/-- Helper: Python's `int()` truncation of a non-negative float is at most
the float. -/
lemma pyIntTrunc_le {x : ℚ} (hx : 0 ≤ x) : (pyIntTrunc x : ℚ) ≤ x := by
  have hnum : (0 : ℤ) ≤ x.num := Rat.num_nonneg.mpr hx
  have h2 : ((x.num.toNat : ℕ) : ℚ) = ((x.num : ℤ) : ℚ) := by
    exact_mod_cast congrArg (fun z => ((z : ℤ) : ℚ)) (Int.toNat_of_nonneg hnum)
  calc (pyIntTrunc x : ℚ) ≤ (x.num.toNat : ℚ) / (x.den : ℚ) := Nat.cast_div_le
    _ = (x.num : ℚ) / (x.den : ℚ) := by rw [h2]
    _ = x := Rat.num_div_den x

/-- Helper: when the step-3 loop completes without raising, its output is
the element-wise cap. -/
lemma capLoop_ok_eq_map (maxW : ℚ) (total : ℕ) :
    ∀ (vps done out : List ValidPrice), capLoop maxW total done vps = .ok out →
      out = done ++ vps.map (capOne maxW total) := by
  intro vps
  induction vps with
  | nil =>
    intro done out h
    simp only [capLoop] at h
    cases h
    simp
  | cons x rest ih =>
    intro done out h
    rw [capLoop] at h
    split at h
    · cases h
    · have := ih (done ++ [capOne maxW total x]) out h
      simpa using this

/-- Claim C2 (amended): a feed whose natural share of the pre-cap total
exceeds `max_single_feed_weight` has its trade count replaced by
`int(total * max)`, so its share *of the pre-cap total* is at most the max
(exactly the max up to the `int()` rounding); its effective weight in the
final average, which divides by the post-cap denominator, can exceed the max
(see the counterexample).  The successful cap loop caps each feed
independently this way. -/
theorem weight_cap_share_of_precap_total (maxW : ℚ) (total : ℕ) (vp : ValidPrice)
    (hT : 0 < total) (hW : 0 ≤ maxW)
    (hover : maxW < (vp.trades : ℚ) / (total : ℚ)) :
    (capOne maxW total vp).trades = pyIntTrunc ((total : ℚ) * maxW) ∧
    ((capOne maxW total vp).trades : ℚ) / (total : ℚ) ≤ maxW ∧
    ∀ (done vps out : List ValidPrice), capLoop maxW total done vps = .ok out →
      out = done ++ vps.map (capOne maxW total) := by
  have htq : (0 : ℚ) < (total : ℚ) := by exact_mod_cast hT
  have hcap : capOne maxW total vp
      = { vp with trades := pyIntTrunc ((total : ℚ) * maxW) } := by
    rw [capOne, if_pos hover]
  refine ⟨by rw [hcap], ?_, fun done vps out h => capLoop_ok_eq_map maxW total vps done out h⟩
  rw [hcap]
  have hle : ((pyIntTrunc ((total : ℚ) * maxW) : ℕ) : ℚ) ≤ (total : ℚ) * maxW :=
    pyIntTrunc_le (by positivity)
  rw [div_le_iff₀ htq]
  calc ((pyIntTrunc ((total : ℚ) * maxW) : ℕ) : ℚ) ≤ (total : ℚ) * maxW := hle
    _ = maxW * (total : ℚ) := mul_comm _ _

/-- Claim C2 (witness): the capped count for a feed with 900 of 1000 trades
under a 60% cap is 600, whose share of the pre-cap total is within the
cap. -/
theorem weight_cap_share_of_precap_total_witness :
    (capOne (6 / 10) 1000 ⟨"A", 100, 900⟩).trades = 600 ∧
    ((capOne (6 / 10) 1000 ⟨"A", 100, 900⟩).trades : ℚ) / (1000 : ℚ) ≤ 6 / 10 := by
  have h := weight_cap_share_of_precap_total (6 / 10) 1000 ⟨"A", 100, 900⟩
    (by decide) (by decide) (by decide)
  exact ⟨by rw [h.1]; decide, h.2.1⟩

/-- Claim C4 (counterexample): in the §8 scenario (four trades at 100 and a
10x outlier at 1000 with quantity 1/10, deviation ≈ 22% > 3%), the Python
slice for five trades is `prices[0:-1]`, which drops only the top price, so
the trimmed VWAP is exactly the non-outlier VWAP 100 — it does not lie
*strictly between* the non-outlier VWAP and the naive VWAP `5000/41`. -/
theorem outlier_trim_not_strictly_between_cex :
    Oracle.compute outlierOracle 10000 none
      = .ok (some 100, [("stale", .b true), ("window", .q 3600), ("trades", .n 5),
                        ("startup", .b false), ("ts", .i 10000)],
             { outlierOracle with last_price := some 100 }) ∧
    tradesVwap (outlierTrades.take 4) = 100 ∧
    tradesVwap outlierTrades = 5000 / 41 ∧
    trimmedCore outlierTrades = [100, 100, 100, 100] ∧
    ¬ (tradesVwap (outlierTrades.take 4) < 100 ∧ (100 : ℚ) < tradesVwap outlierTrades) := by
  exact ⟨by decide, by decide, by decide, by decide, by decide⟩

/-- Helper: sorting four copies of `a` and one larger `b`. -/
lemma pySorted_four_one (a b : ℚ) (hab : a ≤ b) :
    pySorted [a, a, a, a, b] = [a, a, a, a, b] := by
  refine List.eq_of_perm_of_sorted (List.perm_insertionSort _ _)
    (List.sorted_insertionSort _ _) ?_
  simp [List.sorted_cons, hab, le_refl]

/-- Claim C4 (amended): for five trades — four at price `a > 0` and one high
outlier at price `b > a` — whose VWAP deviates from the median `a` by more
than 3%, `Oracle.compute` returns (no division raises: the median `a` and
the core quantity sum 4 are nonzero) exactly the non-outlier VWAP `a`: the
outlier's contribution is fully excluded (the five-trade slice drops only
the top price), so the result sits at the non-outlier end rather than
strictly between the two VWAPs. -/
theorem five_trade_outlier_fully_excluded (a b q : ℚ) (now : ℤ)
    (ha : 0 < a) (hq : 0 < q) (hab : a < b)
    (hdev : 3 / 100 <
      |tradesVwap [(0, a, 1), (1, a, 1), (2, a, 1), (3, a, 1), (4, b, q)] - a| / a) :
    (∃ m s', Oracle.compute (mkOracle [(0, a, 1), (1, a, 1), (2, a, 1), (3, a, 1), (4, b, q)]
        3600 0 none 4) now none = .ok (some a, m, s')) ∧
    tradesVwap [(0, a, 1), (1, a, 1), (2, a, 1), (3, a, 1)] = a := by
  have hnonout : tradesVwap [((0 : ℤ), a, (1 : ℚ)), (1, a, 1), (2, a, 1), (3, a, 1)] = a := by
    simp only [tradesVwap, tradesVol, List.map_cons, List.map_nil, List.sum_cons,
      List.sum_nil]
    ring
  refine ⟨?_, hnonout⟩
  have hvol : (0 : ℚ) < tradesVol [(0, a, 1), (1, a, 1), (2, a, 1), (3, a, 1), (4, b, q)] := by
    simp only [tradesVol, List.map_cons, List.map_nil, List.sum_cons, List.sum_nil]
    linarith
  have hmed : pyMedian (([((0 : ℤ), a, (1 : ℚ)), (1, a, 1), (2, a, 1), (3, a, 1),
      (4, b, q)]).map (fun t => t.2.1)) = a := by
    simp only [List.map_cons, List.map_nil, pyMedian, pySorted_four_one a b hab.le]
    norm_num
  have hcore : trimmedCore [((0 : ℤ), a, (1 : ℚ)), (1, a, 1), (2, a, 1), (3, a, 1), (4, b, q)]
      = [a, a, a, a] := by
    simp only [trimmedCore, List.map_cons, List.map_nil, pySorted_four_one a b hab.le]
    norm_num [List.take, List.drop]
  have hbne : b ∉ ([a, a, a, a] : List ℚ) := by
    simp [hab.ne']
  have hane : a ∈ ([a, a, a, a] : List ℚ) := by simp
  have hfilt : (([((0 : ℤ), a, (1 : ℚ)), (1, a, 1), (2, a, 1), (3, a, 1), (4, b, q)]).filter
      (fun t => decide (t.2.1 ∈ ([a, a, a, a] : List ℚ))))
      = [((0 : ℤ), a, (1 : ℚ)), (1, a, 1), (2, a, 1), (3, a, 1)] := by
    simp [List.filter, hane, hbne]
  have htrim : trimmedVwap [((0 : ℤ), a, (1 : ℚ)), (1, a, 1), (2, a, 1), (3, a, 1), (4, b, q)]
      = a := by
    simp only [trimmedVwap, hcore]
    rw [hfilt]
    simp only [List.map_cons, List.map_nil, List.sum_cons, List.sum_nil]
    ring
  have hqs : trimmedQsum [((0 : ℤ), a, (1 : ℚ)), (1, a, 1), (2, a, 1), (3, a, 1), (4, b, q)]
      = 4 := by
    simp only [trimmedQsum, hcore]
    rw [hfilt]
    norm_num
  have hcv : computeVwap [((0 : ℤ), a, (1 : ℚ)), (1, a, 1), (2, a, 1), (3, a, 1), (4, b, q)]
      = .ok a := by
    rw [computeVwap]
    simp only [hmed]
    rw [if_neg ha.ne']
    rw [if_pos ⟨hdev, by simp⟩]
    rw [if_neg (show trimmedQsum [((0 : ℤ), a, (1 : ℚ)), (1, a, 1), (2, a, 1), (3, a, 1),
      (4, b, q)] ≠ 0 from by rw [hqs]; norm_num)]
    rw [htrim]
  show ∃ m s', Oracle.compute _ now none = .ok (some a, m, s')
  rw [Oracle.compute]
  rw [if_neg (by simp [startupFlag, mkOracle])]
  simp only [mkOracle]
  rw [if_pos ⟨by simp, hvol⟩, hcv]
  exact ⟨_, _, rfl⟩

/-- Claim C4 (witness): the amended statement at the §8 numbers (a = 100,
b = 1000, q = 1/10). -/
theorem five_trade_outlier_fully_excluded_witness :
    (∃ m s', Oracle.compute (mkOracle [(0, 100, 1), (1, 100, 1), (2, 100, 1), (3, 100, 1),
        (4, 1000, 1/10)] 3600 0 none 4) 10000 none = .ok (some 100, m, s')) ∧
    tradesVwap [(0, 100, 1), (1, 100, 1), (2, 100, 1), (3, 100, 1)] = (100 : ℚ) :=
  five_trade_outlier_fully_excluded 100 1000 (1/10) 10000
    (by decide) (by decide) (by decide) (by decide)

/-- Claim C6 (counterexample): `update_parameters(window_sec=10,
startup_window_sec=-1)` raises `ValueError` for the invalid startup window,
but the window has already been changed from 5 to 10 — the call is not
atomic. -/
theorem update_parameters_partial_mutation_cex :
    (Oracle.update_parameters (mkOracle [] 5 900 none 0) 1000 (some 10) (some (-1)) none).2
      = some .valueError ∧
    (Oracle.update_parameters (mkOracle [] 5 900 none 0) 1000
        (some 10) (some (-1)) none).1.window = 10 ∧
    (mkOracle [] 5 900 none 0).window = 5 := by
  exact ⟨by decide, by decide, by decide⟩

/-- Claim C6 (amended): each supplied parameter is validated
(`window_sec > 0`, `startup_window_sec ≥ 0`, `min_notional ≥ 0`) and the
call raises `ValueError` exactly when one of them is invalid; but validation
is interleaved with mutation in source order, so only an invalid
`window_sec` leaves the whole state untouched: on any error the parameters
at or after the first invalid one (in particular `min_notional`, which comes
last) are unchanged, while earlier valid parameters have already been
applied.  When every supplied value is valid, all of them are applied. -/
theorem update_parameters_sequential_validation (s : OracleState) (now : ℤ)
    (w su mn : Option ℚ) :
    ((Oracle.update_parameters s now w su mn).2 = none ↔
      (∀ v ∈ w, 0 < v) ∧ (∀ v ∈ su, 0 ≤ v) ∧ (∀ v ∈ mn, 0 ≤ v)) ∧
    (∀ v ∈ w, ¬ 0 < v → Oracle.update_parameters s now w su mn = (s, some .valueError)) ∧
    ((Oracle.update_parameters s now w su mn).2 ≠ none →
      (Oracle.update_parameters s now w su mn).1.min_notional = s.min_notional) ∧
    ((∀ v ∈ w, 0 < v) → ∀ v ∈ su, ¬ 0 ≤ v →
      (Oracle.update_parameters s now w su mn).1.startup_window = s.startup_window ∧
      (Oracle.update_parameters s now w su mn).1.min_notional = s.min_notional) ∧
    ((Oracle.update_parameters s now w su mn).2 = none →
      (Oracle.update_parameters s now w su mn).1.window = w.getD s.window ∧
      (Oracle.update_parameters s now w su mn).1.startup_window = su.getD s.startup_window ∧
      (Oracle.update_parameters s now w su mn).1.min_notional = mn.getD s.min_notional) := by
  rcases w with _ | v <;> rcases su with _ | u <;> rcases mn with _ | m <;>
    simp only [Oracle.update_parameters, Oracle.updateStartup, Oracle.updateMinNotional,
      Option.mem_def, Option.getD_none, Option.getD_some, Option.some.injEq,
      forall_eq] <;>
    first
      | (split_ifs <;> simp_all)
      | simp_all

/-- Claim C3 (counterexample): the claim's non-NaN guarantee past the
threshold fails.  Both trades pass the default `min_notional = 10` filter of
`add_trade` (the first has Python notional `(-10)*(-1) = 10`), the state is
past its startup window with positive total volume, yet `compute` raises
`ZeroDivisionError` at `abs(vwap - med) / med` because the price median is
0 — it returns no value at all. -/
theorem compute_startup_gating_zero_median_cex :
    storedTrade none 10 "XCH-USD" 0 (-10) (-1) = some (0, -10, -1) ∧
    storedTrade none 10 "XCH-USD" 1 10 2 = some (1, 10, 2) ∧
    medZeroOracle.start_time = some 0 ∧
    medZeroOracle.startup_window ≤ (10000 : ℚ) / 1000 - 0 ∧
    0 < tradesVol medZeroOracle.trades ∧
    pyMedian (medZeroOracle.trades.map (fun t => t.2.1)) = 0 ∧
    Oracle.compute medZeroOracle 10000 none = .error .zeroDivisionError := by
  exact ⟨by decide, by decide, by decide, by decide, by decide, by decide, by decide⟩

/-- Claim C3 (amended): once `start_time` is set, `compute` returns NaN
(with `startup: true` metadata and no state change) on every call with
`now/1000 - start_time < startup_window`, regardless of the trades present
— this direction is unconditional; as soon as the threshold is reached,
given trades with positive total volume, it returns whatever real (non-NaN)
price the window computation produces, with `startup: false` — *provided*
that computation returns at all: at zero price-median states (and at trim
states with zero core quantity) it instead raises `ZeroDivisionError`, see
the counterexample.  The statement is for every `startup_window ≥ 0` — in
particular 0, 1 and 900 seconds. -/
theorem compute_startup_gating (s : OracleState) (now : ℤ) (fb : Option ℚ) (st : ℚ)
    (hst : s.start_time = some st) :
    ((now : ℚ) / 1000 - st < s.startup_window →
      ∃ m, Oracle.compute s now fb = .ok (none, m, s) ∧
        m.lookup "startup" = some (.b true)) ∧
    (s.startup_window ≤ (now : ℚ) / 1000 - st →
      s.trades ≠ [] → 0 < tradesVol s.trades →
      ∀ p, computeVwap s.trades = .ok p →
        ∃ m, Oracle.compute s now fb = .ok (some p, m, { s with last_price := some p }) ∧
          m.lookup "startup" = some (.b false)) := by
  constructor
  · intro hlt
    have hflag : startupFlag s now = true := by
      simp [startupFlag, hst, hlt]
    rw [Oracle.compute, if_pos hflag]
    exact ⟨_, rfl, rfl⟩
  · intro hge hne hvol p hp
    have hflag : startupFlag s now = false := by
      simp [startupFlag, hst, not_lt.mpr hge]
    rw [Oracle.compute, if_neg (by rw [hflag]; exact Bool.false_ne_true)]
    dsimp only
    rw [if_pos ⟨hne, hvol⟩, hp]
    exact ⟨_, rfl, rfl⟩

/-- Claim C3 (witness): with a 900 s startup window started at 0, a call at
100 s returns NaN and a call at 900 s returns the VWAP 100. -/
theorem compute_startup_gating_witness :
    (∃ m, Oracle.compute gateOracle 100000 none = .ok (none, m, gateOracle) ∧
        m.lookup "startup" = some (.b true)) ∧
    (∃ m, Oracle.compute gateOracle 900000 none
        = .ok (some 100, m, { gateOracle with last_price := some 100 }) ∧
        m.lookup "startup" = some (.b false)) :=
  ⟨(compute_startup_gating gateOracle 100000 none 0 rfl).1 (by norm_num [gateOracle, mkOracle]),
   (compute_startup_gating gateOracle 900000 none 0 rfl).2
      (by norm_num [gateOracle, mkOracle]) (by decide) (by decide) 100 (by decide)⟩

/-- Claim C9 (counterexample): `compute` twice with no new trades is not
idempotent in general — here the first call (at 1 s) is inside the 5 s
startup window and returns NaN leaving the state unchanged, while the second
(at 10 s, on that same state) is outside it and returns 100; the metadata
also differs beyond the timestamp field (`startup` flips to `false`, `stale`
to `true`). -/
theorem compute_not_idempotent_cex :
    Oracle.compute idemOracle 1000 none
      = .ok (none, [("stale", .b false), ("window", .q 3600), ("trades", .n 1),
                    ("startup", .b true)], idemOracle) ∧
    Oracle.compute idemOracle 10000 none
      = .ok (some 100, [("stale", .b true), ("window", .q 3600), ("trades", .n 1),
                        ("startup", .b false), ("ts", .i 10000)],
             { idemOracle with last_price := some 100 }) ∧
    metaDropTs [("stale", .b false), ("window", .q 3600), ("trades", .n 1),
                ("startup", .b true)]
      ≠ metaDropTs [("stale", .b true), ("window", .q 3600), ("trades", .n 1),
                    ("startup", .b false), ("ts", .i 10000)] := by
  exact ⟨by decide, by decide, by decide⟩

/-- Helper: `metaDropTs` erases a trailing `ts` entry. -/
lemma metaDropTs_append_ts (m : Meta) (v : MetaVal) :
    metaDropTs (m ++ [("ts", v)]) = metaDropTs m := by
  simp [metaDropTs, List.filter_append]

/-- Claim C9 (amended): two `compute` calls with no trades added in between
and the same `fallback_mid` yield the identical price and identical metadata
apart from the timestamp field, *provided* the two calls fall on the same
side of the startup boundary, have the same staleness status, and the first
call returns at all; when the first call instead raises `ZeroDivisionError`
(zero price-median or zero trimmed-core quantity, see `computeVwap`), a
same-phase second call — on the unchanged state — raises the identical
error.  Crossing the startup/staleness boundary between the calls changes
the `startup`/`stale` fields (and, for the startup boundary, the price) —
see the counterexample. -/
theorem compute_idempotent_same_phase (s : OracleState) (now1 now2 : ℤ) (fb : Option ℚ)
    (hflag : startupFlag s now1 = startupFlag s now2)
    (hstale : decide (5000 < now1 - s.last_trade_ts)
            = decide (5000 < now2 - s.last_trade_ts)) :
    (∀ p1 m1 s1, Oracle.compute s now1 fb = .ok (p1, m1, s1) →
      ∃ m2 s2, Oracle.compute s1 now2 fb = .ok (p1, m2, s2) ∧
        metaDropTs m2 = metaDropTs m1) ∧
    (∀ e, Oracle.compute s now1 fb = .error e → Oracle.compute s now2 fb = .error e) := by
  obtain ⟨tp, w, su, mn, tr, lp, ltt, lpr, usdt, st, bc⟩ := s
  dsimp only at hflag hstale
  by_cases hb : startupFlag ⟨tp, w, su, mn, tr, lp, ltt, lpr, usdt, st, bc⟩ now1 = true
  · -- both calls inside the startup window
    have hb2 : startupFlag ⟨tp, w, su, mn, tr, lp, ltt, lpr, usdt, st, bc⟩ now2 = true :=
      hflag.symm.trans hb
    have hinner : Oracle.compute ⟨tp, w, su, mn, tr, lp, ltt, lpr, usdt, st, bc⟩ now1 fb
        = .ok (none, [("stale", .b false), ("window", .q w), ("trades", .n tr.length),
                  ("startup", .b true)],
           ⟨tp, w, su, mn, tr, lp, ltt, lpr, usdt, st, bc⟩) := by
      rw [Oracle.compute, if_pos hb]
    constructor
    · intro p1 m1 s1 h
      rw [hinner] at h
      injection h with h
      simp only [Prod.mk.injEq] at h
      obtain ⟨rfl, rfl, rfl⟩ := h
      exact ⟨[("stale", .b false), ("window", .q w), ("trades", .n tr.length),
              ("startup", .b true)],
             ⟨tp, w, su, mn, tr, lp, ltt, lpr, usdt, st, bc⟩,
             by rw [Oracle.compute, if_pos hb2], rfl⟩
    · intro e h
      rw [hinner] at h
      simp at h
  · -- both calls past the startup window
    have hb1 : startupFlag ⟨tp, w, su, mn, tr, lp, ltt, lpr, usdt, st, bc⟩ now1 = false := by
      cases h : startupFlag ⟨tp, w, su, mn, tr, lp, ltt, lpr, usdt, st, bc⟩ now1
      · rfl
      · exact absurd h hb
    have hb2 : startupFlag ⟨tp, w, su, mn, tr, lp, ltt, lpr, usdt, st, bc⟩ now2 = false :=
      hflag.symm.trans hb1
    by_cases hcond : tr ≠ [] ∧ 0 < tradesVol tr
    · cases hcv : computeVwap tr with
      | ok p =>
        have hinner : Oracle.compute ⟨tp, w, su, mn, tr, lp, ltt, lpr, usdt, st, bc⟩ now1 fb
            = .ok (some p,
               [("stale", .b (decide (5000 < now1 - ltt))), ("window", .q w),
                ("trades", .n tr.length), ("startup", .b false)] ++ [("ts", .i now1)],
               ⟨tp, w, su, mn, tr, lp, ltt, some p, usdt, st, bc⟩) := by
          rw [Oracle.compute, if_neg (by rw [hb1]; exact Bool.false_ne_true)]
          dsimp only
          rw [if_pos hcond, hcv]
        constructor
        · intro p1 m1 s1 h
          rw [hinner] at h
          injection h with h
          simp only [Prod.mk.injEq] at h
          obtain ⟨rfl, rfl, rfl⟩ := h
          refine ⟨[("stale", .b (decide (5000 < now2 - ltt))), ("window", .q w),
                   ("trades", .n tr.length), ("startup", .b false)] ++ [("ts", .i now2)],
                  ⟨tp, w, su, mn, tr, lp, ltt, some p, usdt, st, bc⟩, ?_, ?_⟩
          · rw [Oracle.compute,
              if_neg (by simp only [startupFlag] at hb2 ⊢; rw [hb2]; exact Bool.false_ne_true)]
            dsimp only
            rw [if_pos hcond, hcv]
          · rw [metaDropTs_append_ts, metaDropTs_append_ts, hstale]
        · intro e h
          rw [hinner] at h
          simp at h
      | error e0 =>
        have hinner : Oracle.compute ⟨tp, w, su, mn, tr, lp, ltt, lpr, usdt, st, bc⟩ now1 fb
            = .error e0 := by
          rw [Oracle.compute, if_neg (by rw [hb1]; exact Bool.false_ne_true)]
          dsimp only
          rw [if_pos hcond, hcv]
        constructor
        · intro p1 m1 s1 h
          rw [hinner] at h
          simp at h
        · intro e h
          rw [hinner] at h
          injection h with h
          subst h
          rw [Oracle.compute,
            if_neg (by simp only [startupFlag] at hb2 ⊢; rw [hb2]; exact Bool.false_ne_true)]
          dsimp only
          rw [if_pos hcond, hcv]
    · have hinner : Oracle.compute ⟨tp, w, su, mn, tr, lp, ltt, lpr, usdt, st, bc⟩ now1 fb
          = .ok (fb.orElse (fun _ => lpr),
             [("stale", .b (decide (5000 < now1 - ltt))), ("window", .q w),
              ("trades", .n tr.length), ("startup", .b false)]
               ++ [("degraded", .b true), ("ts", .i now1)],
             ⟨tp, w, su, mn, tr, lp, ltt, fb.orElse (fun _ => lpr), usdt, st, bc⟩) := by
        rw [Oracle.compute, if_neg (by rw [hb1]; exact Bool.false_ne_true)]
        dsimp only
        rw [if_neg hcond]
      constructor
      · intro p1 m1 s1 h
        rw [hinner] at h
        injection h with h
        simp only [Prod.mk.injEq] at h
        obtain ⟨rfl, rfl, rfl⟩ := h
        have hprice : fb.orElse (fun _ => fb.orElse fun _ => lpr)
            = fb.orElse (fun _ => lpr) := by
          cases fb <;> simp [Option.orElse]
        refine ⟨[("stale", .b (decide (5000 < now2 - ltt))), ("window", .q w),
                 ("trades", .n tr.length), ("startup", .b false)]
                  ++ [("degraded", .b true), ("ts", .i now2)],
                ⟨tp, w, su, mn, tr, lp, ltt, fb.orElse (fun _ => lpr), usdt, st, bc⟩, ?_, ?_⟩
        · rw [Oracle.compute,
            if_neg (by simp only [startupFlag] at hb2 ⊢; rw [hb2]; exact Bool.false_ne_true)]
          dsimp only
          rw [if_neg hcond]
          simp only [hprice]
        · rw [show ∀ (m : Meta) (d v : MetaVal), m ++ [("degraded", d), ("ts", v)]
                = (m ++ [("degraded", d)]) ++ [("ts", v)] from by intros; simp]
          rw [show ([("stale", MetaVal.b (decide (5000 < now1 - ltt))), ("window", MetaVal.q w),
                ("trades", MetaVal.n tr.length), ("startup", MetaVal.b false)]
                ++ [("degraded", MetaVal.b true), ("ts", MetaVal.i now1)] : Meta)
                = ([("stale", MetaVal.b (decide (5000 < now1 - ltt))), ("window", MetaVal.q w),
                ("trades", MetaVal.n tr.length), ("startup", MetaVal.b false)]
                ++ [("degraded", MetaVal.b true)]) ++ [("ts", MetaVal.i now1)] from by simp]
          rw [metaDropTs_append_ts, metaDropTs_append_ts, hstale]
      · intro e h
        rw [hinner] at h
        simp at h

/-- Claim C9 (witness): two non-startup, non-stale calls at 1 s and 2 s on a
fresh one-trade state give the same price 100 and the same metadata apart
from the timestamp. -/
theorem compute_idempotent_same_phase_witness :
    ∃ m2 s2,
      Oracle.compute { mkOracle [(0, 100, 1)] 3600 0 (some 0) 0 with last_price := some 100 }
          2000 none
        = .ok (some 100, m2, s2) ∧
      metaDropTs m2
        = metaDropTs [("stale", .b false), ("window", .q 3600), ("trades", .n 1),
                      ("startup", .b false), ("ts", .i 1000)] :=
  (compute_idempotent_same_phase (mkOracle [(0, 100, 1)] 3600 0 (some 0) 0) 1000 2000 none
      (by decide) (by decide)).1 (some 100)
    [("stale", .b false), ("window", .q 3600), ("trades", .n 1),
     ("startup", .b false), ("ts", .i 1000)]
    { mkOracle [(0, 100, 1)] 3600 0 (some 0) 0 with last_price := some 100 }
    (by decide)

/-! ### Sliding-window lemmas (claim C1) -/

/-- Helper: membership of the last element. -/
lemma mem_of_getLastEq {α : Type} {l : List α} {a : α} (h : l.getLast? = some a) : a ∈ l := by
  obtain ⟨hne, rfl⟩ :=
    List.mem_getLast?_eq_getLast (show a ∈ l.getLast? from by simp [Option.mem_def, h])
  exact List.getLast_mem hne

/-- Helper: total quantity of an append. -/
lemma qsum_append (l1 l2 : List FTrade) : qsum (l1 ++ l2) = qsum l1 + qsum l2 := by
  simp [qsum]

/-- Helper: a non-empty trade list with positive quantities has positive
total quantity. -/
lemma qsum_pos {l : List FTrade} (h : ∀ t ∈ l, 0 < t.qty) (hne : l ≠ []) : 0 < qsum l := by
  induction l with
  | nil => exact absurd rfl hne
  | cons t rest ih =>
    have ht : 0 < t.qty := h t (by simp)
    rcases eq_or_ne rest [] with hr | hr
    · simp [hr, qsum, ht]
    · have := ih (fun x hx => h x (by simp [hx])) hr
      simp only [qsum, List.map_cons, List.sum_cons] at *
      linarith

/-- Helper: `recalculate_on_pop` correctly removes the head trade's
contribution from the running aggregates (in exact arithmetic). -/
lemma recalculate_on_pop_spec (t : FTrade) (rest : List FTrade) (pr : Option ℚ) (sz : ℚ)
    (hq : ∀ x ∈ t :: rest, 0 < x.qty)
    (hsz : sz = qsum (t :: rest))
    (hpr : pr = some (vwapOf (t :: rest))) :
    (OkxFeed.recalculate_on_pop ⟨t :: rest, pr, sz⟩).size = qsum rest ∧
    (rest = [] → (OkxFeed.recalculate_on_pop ⟨t :: rest, pr, sz⟩).price = none ∧
      (OkxFeed.recalculate_on_pop ⟨t :: rest, pr, sz⟩).size = 0) ∧
    (rest ≠ [] → (OkxFeed.recalculate_on_pop ⟨t :: rest, pr, sz⟩).price
      = some (vwapOf rest)) := by
  match rest with
  | [] =>
    refine ⟨by simp [OkxFeed.recalculate_on_pop, qsum], fun _ => ⟨rfl, rfl⟩, fun h => absurd rfl h⟩
  | [b] =>
    have hb : 0 < b.qty := hq b (by simp)
    refine ⟨by simp [OkxFeed.recalculate_on_pop, qsum], fun h => by simp at h, fun _ => ?_⟩
    simp only [OkxFeed.recalculate_on_pop]
    rw [vwapOf, qsum]
    simp only [List.map_cons, List.map_nil, List.sum_cons, List.sum_nil, add_zero]
    rw [mul_div_assoc, div_self (ne_of_gt hb), mul_one]
  | b :: c :: rest' =>
    have hQ : (0 : ℚ) < qsum (t :: b :: c :: rest') := qsum_pos hq (by simp)
    have hQr : (0 : ℚ) < qsum (b :: c :: rest') :=
      qsum_pos (fun x hx => hq x (by simp [List.mem_cons] at hx ⊢; tauto)) (by simp)
    constructor
    · simp only [OkxFeed.recalculate_on_pop, hsz]
      simp only [qsum, List.map_cons, List.sum_cons]
      ring
    refine ⟨fun h => by simp at h, fun _ => ?_⟩
    simp only [OkxFeed.recalculate_on_pop, hpr, hsz, Option.map_some']
    congr 1
    rw [vwapOf, div_mul_cancel₀ _ (ne_of_gt hQ)]
    rw [vwapOf]
    simp only [qsum, List.map_cons, List.sum_cons] at *
    rw [show t.px * t.qty + (b.px * b.qty + (c.px * c.qty + ((rest'.map fun x => x.px * x.qty)).sum))
          - t.px * t.qty
        = b.px * b.qty + (c.px * c.qty + ((rest'.map fun x => x.px * x.qty)).sum) from by ring,
      show t.qty + (b.qty + (c.qty + ((rest'.map fun x => x.qty)).sum)) - t.qty
        = b.qty + (c.qty + ((rest'.map fun x => x.qty)).sum) from by ring]

/-- Helper: `recalculate_on_append` correctly adds a trade's contribution to
the running aggregates (in exact arithmetic). -/
lemma recalculate_on_append_spec (t : FTrade) (l : List FTrade) (pr : Option ℚ) (sz : ℚ)
    (hq : ∀ x ∈ l, 0 < x.qty) (ht : 0 < t.qty)
    (hsz : sz = qsum l)
    (hem : l = [] → pr = none) (hne : l ≠ [] → pr = some (vwapOf l)) :
    (OkxFeed.recalculate_on_append t ⟨l, pr, sz⟩).price = some (vwapOf (l ++ [t])) ∧
    (OkxFeed.recalculate_on_append t ⟨l, pr, sz⟩).size = qsum (l ++ [t]) := by
  rcases eq_or_ne l [] with hl | hl
  · subst hl
    rw [hem rfl]
    simp only [OkxFeed.recalculate_on_append, List.nil_append]
    refine ⟨?_, by simp [hsz, qsum]⟩
    rw [vwapOf, qsum]
    simp only [List.map_cons, List.map_nil, List.sum_cons, List.sum_nil, add_zero]
    rw [mul_div_assoc, div_self (ne_of_gt ht), mul_one]
  · have hQ : (0 : ℚ) < qsum l := qsum_pos hq hl
    rw [hne hl]
    simp only [OkxFeed.recalculate_on_append]
    constructor
    · congr 1
      rw [hsz, vwapOf, div_mul_cancel₀ _ (ne_of_gt hQ), vwapOf, qsum_append]
      simp [qsum]
    · simp [hsz, qsum_append, qsum]

/-- Helper: on a timestamp-sorted feed with positive quantities and correct
running aggregates, the eviction loop removes exactly the trades older than
the cutoff and keeps the aggregates correct. -/
lemma evictGo_spec (cutoff : ℤ) :
    ∀ (l : List FTrade) (pr : Option ℚ) (sz : ℚ),
      l.Pairwise (fun a b => a.ts < b.ts) →
      (∀ t ∈ l, 0 < t.qty) →
      sz = qsum l →
      (l = [] → pr = none ∧ sz = 0) →
      (l ≠ [] → pr = some (vwapOf l)) →
      (OkxFeed.evictGo cutoff l pr sz).feed = l.filter (fun t => decide (cutoff ≤ t.ts)) ∧
      FeedWindowInv (OkxFeed.evictGo cutoff l pr sz) := by
  intro l
  induction l with
  | nil =>
    intro pr sz _ _ hsz hem _
    refine ⟨by simp [OkxFeed.evictGo], ?_⟩
    exact ⟨by simpa [OkxFeed.evictGo, qsum] using hsz,
           fun _ => ⟨(hem rfl).1, (hem rfl).2⟩,
           fun h => absurd rfl h⟩
  | cons t rest ih =>
    intro pr sz hsorted hq hsz hem hne
    by_cases hcut : t.ts < cutoff
    · have hps := recalculate_on_pop_spec t rest pr sz hq hsz (hne (by simp))
      have hrest := ih (OkxFeed.recalculate_on_pop ⟨t :: rest, pr, sz⟩).price
        (OkxFeed.recalculate_on_pop ⟨t :: rest, pr, sz⟩).size
        (hsorted.sublist (List.sublist_cons_self t rest))
        (fun x hx => hq x (by simp [hx]))
        hps.1
        (fun h => ⟨(hps.2.1 h).1, (hps.2.1 h).2⟩)
        (fun h => hps.2.2 h)
      rw [OkxFeed.evictGo]
      rw [if_pos hcut]
      refine ⟨?_, hrest.2⟩
      rw [hrest.1, List.filter_cons_of_neg (by simpa using not_le.mpr hcut)]
    · rw [OkxFeed.evictGo, if_neg hcut]
      have hkeep : (t :: rest).filter (fun x => decide (cutoff ≤ x.ts)) = t :: rest := by
        apply List.filter_eq_self.mpr
        intro x hx
        rcases List.mem_cons.mp hx with rfl | hx'
        · simpa using not_lt.mp hcut
        · have : t.ts < x.ts := (List.pairwise_cons.mp hsorted).1 x hx'
          simp only [decide_eq_true_eq]
          omega
      exact ⟨hkeep.symm, hsz, fun h => by simp at h, fun _ => hne (by simp)⟩

/-- Helper: one `OkxFeed.__call__` trade message preserves the window
invariant and leaves exactly the in-window trades plus the new one. -/
lemma okxStep_spec (windowMs : ℤ) (s : FeedState) (now : ℤ) (t : FTrade)
    (hsorted : s.feed.Pairwise (fun a b => a.ts < b.ts))
    (hq : ∀ x ∈ s.feed, 0 < x.qty) (ht : 0 < t.qty)
    (hinv : FeedWindowInv s) :
    (OkxFeed.step windowMs s now t).feed
      = s.feed.filter (fun x => decide (now - windowMs ≤ x.ts)) ++ [t] ∧
    FeedWindowInv (OkxFeed.step windowMs s now t) := by
  have hs1 : (if s.feed.isEmpty then s else OkxFeed.evict (now - windowMs) s)
      = OkxFeed.evictGo (now - windowMs) s.feed s.price s.size := by
    by_cases h : s.feed = []
    · obtain ⟨f, p, z⟩ := s
      simp only at h
      subst h
      simp [OkxFeed.evictGo]
    · rw [if_neg (by simpa [List.isEmpty_iff] using h)]
      rfl
  have hev := evictGo_spec (now - windowMs) s.feed s.price s.size hsorted hq
    hinv.1 (fun h => ⟨hinv.2.1 h |>.1, hinv.2.1 h |>.2⟩) (fun h => hinv.2.2 h)
  set s1 := OkxFeed.evictGo (now - windowMs) s.feed s.price s.size with hs1def
  have hq1 : ∀ x ∈ s1.feed, 0 < x.qty := by
    intro x hx
    rw [hev.1] at hx
    exact hq x (List.mem_of_mem_filter hx)
  have happ := recalculate_on_append_spec t s1.feed s1.price s1.size hq1 ht
    hev.2.1 (fun h => (hev.2.2.1 h).1) (fun h => hev.2.2.2 h)
  rw [OkxFeed.step, hs1]
  constructor
  · show s1.feed ++ [t] = _
    rw [hev.1]
  · refine ⟨?_, fun h => by simp at h, fun _ => ?_⟩
    · show (OkxFeed.recalculate_on_append t s1).size = qsum (s1.feed ++ [t])
      exact happ.2
    · show (OkxFeed.recalculate_on_append t s1).price = some (vwapOf (s1.feed ++ [t]))
      exact happ.1

/-- Helper: filtering a singleton whose element passes the predicate. -/
lemma filter_singleton_pos {α : Type} (p : α → Bool) (t : α) (h : p t = true) :
    [t].filter p = [t] := by
  simp [List.filter_cons, h]

/-- Helper: the legacy feed's window state after any well-formed event
sequence holds exactly the trades inside the window of the last event's
wall-clock time, with correct running aggregates. -/
lemma okx_run_spec (windowMs : ℤ) :
    ∀ (events : List FeedEvent), FeedEventsOk windowMs events →
      ∀ le, events.getLast? = some le →
        (OkxFeed.run windowMs events).feed
          = (events.map (fun e => e.trade)).filter
              (fun x => decide (le.now - windowMs ≤ x.ts)) ∧
        FeedWindowInv (OkxFeed.run windowMs events) := by
  intro events
  induction events using List.reverseRecOn with
  | nil => intro _ le hle; simp at hle
  | append_singleton es e ih =>
    intro hok le hle
    rw [List.getLast?_concat] at hle
    injection hle with hle
    subst hle
    obtain ⟨hts, hnow, hmem⟩ := hok
    have hokes : FeedEventsOk windowMs es :=
      ⟨hts.sublist (List.sublist_append_left es [e]),
       hnow.sublist (List.sublist_append_left es [e]),
       fun x hx => hmem x (by simp [hx])⟩
    have hrun : OkxFeed.run windowMs (es ++ [e])
        = OkxFeed.step windowMs (OkxFeed.run windowMs es) e.now e.trade := by
      simp [OkxFeed.run, List.foldl_append]
    have hepass : decide (e.now - windowMs ≤ e.trade.ts) = true := by
      simpa using (hmem e (by simp)).2.2
    rcases eq_or_ne es [] with hes | hes
    · subst hes
      have hstep := okxStep_spec windowMs OkxFeed.initState e.now e.trade
        (by simp [OkxFeed.initState]) (by simp [OkxFeed.initState])
        (hmem e (by simp)).1
        ⟨by simp [OkxFeed.initState, qsum], fun _ => ⟨rfl, rfl⟩, fun h => absurd rfl h⟩
      rw [show ([] ++ [e] : List FeedEvent) = [e] from rfl] at hrun ⊢
      rw [hrun, show OkxFeed.run windowMs ([] : List FeedEvent) = OkxFeed.initState from rfl]
      refine ⟨?_, hstep.2⟩
      rw [hstep.1]
      rw [show OkxFeed.initState.feed = ([] : List FTrade) from rfl, List.filter_nil,
        List.nil_append, List.map_cons, List.map_nil]
      exact (filter_singleton_pos (fun x => decide (e.now - windowMs ≤ x.ts)) e.trade hepass).symm
    · have hesne : es.getLast? ≠ none := by
        simpa [List.getLast?_eq_none_iff] using hes
      obtain ⟨le', hle'⟩ := Option.ne_none_iff_exists'.mp hesne
      have hih := ih hokes le' hle'
      have hle'mem : le' ∈ es := mem_of_getLastEq hle'
      have hA : (es.map (fun e => e.trade)).Pairwise (fun a b => a.ts < b.ts) := by
        rw [List.pairwise_map]
        exact hts.sublist (List.sublist_append_left es [e])
      have hsorted : (OkxFeed.run windowMs es).feed.Pairwise (fun a b => a.ts < b.ts) := by
        rw [hih.1]
        exact hA.sublist (List.filter_sublist _)
      have hqfeed : ∀ x ∈ (OkxFeed.run windowMs es).feed, 0 < x.qty := by
        rw [hih.1]
        intro x hx
        obtain ⟨hxA, _⟩ := List.mem_filter.mp hx
        obtain ⟨ev, hev, rfl⟩ := List.mem_map.mp hxA
        exact (hmem ev (by simp [hev])).1
      have hstep := okxStep_spec windowMs (OkxFeed.run windowMs es) e.now e.trade
        hsorted hqfeed (hmem e (by simp)).1 hih.2
      rw [hrun]
      refine ⟨?_, hstep.2⟩
      rw [hstep.1, hih.1]
      have hc' : le'.now ≤ e.now :=
        (List.pairwise_append.mp hnow).2.2 le' hle'mem e (by simp)
      rw [List.map_append, List.filter_append]
      simp only [List.map_cons, List.map_nil]
      rw [show (([e.trade] : List FTrade).filter (fun x => decide (e.now - windowMs ≤ x.ts)))
            = [e.trade] from
          filter_singleton_pos (fun x => decide (e.now - windowMs ≤ x.ts)) e.trade hepass]
      congr 1
      rw [List.filter_filter]
      apply List.filter_congr
      intro x _
      by_cases hx : e.now - windowMs ≤ x.ts
      · have hx' : le'.now - windowMs ≤ x.ts := by omega
        simp [hx, hx']
      · simp [hx]

/-- Helper: on a timestamp-sorted trade list, the head-eviction loop of
`add_trade` removes exactly the too-old trades. -/
lemma dropWhile_old_eq_filter (c : ℚ) :
    ∀ (l : List (ℤ × ℚ × ℚ)), l.Pairwise (fun a b => a.1 < b.1) →
      l.dropWhile (fun t => decide ((t.1 : ℚ) < c))
        = l.filter (fun t => decide (c ≤ (t.1 : ℚ))) := by
  intro l
  induction l with
  | nil => intro _; rfl
  | cons t rest ih =>
    intro hs
    by_cases hc : (t.1 : ℚ) < c
    · rw [List.dropWhile_cons_of_pos (by simpa using hc),
          List.filter_cons_of_neg (by simpa using not_le.mpr hc)]
      exact ih (List.pairwise_cons.mp hs).2
    · rw [List.dropWhile_cons_of_neg (by simpa using hc),
          List.filter_cons_of_pos (by simpa using not_lt.mp hc)]
      congr 1
      symm
      apply List.filter_eq_self.mpr
      intro x hx
      have h1 : t.1 < x.1 := (List.pairwise_cons.mp hs).1 x hx
      have h2 : (t.1 : ℚ) < (x.1 : ℚ) := by exact_mod_cast h1
      simp only [decide_eq_true_eq]
      linarith [not_lt.mp hc]

/-- Helper: `add_trade` never changes the window, conversion rate, or
notional floor. -/
lemma add_trade_params (s : OracleState) (pair : String) (ts : ℤ) (px qty : ℚ) (now : ℤ) :
    (Oracle.add_trade s pair ts px qty now).window = s.window ∧
    (Oracle.add_trade s pair ts px qty now).usdt_usd_price = s.usdt_usd_price ∧
    (Oracle.add_trade s pair ts px qty now).min_notional = s.min_notional := by
  cases h : storedTrade s.usdt_usd_price s.min_notional pair ts px qty with
  | none => rw [Oracle.add_trade, h]; exact ⟨rfl, rfl, rfl⟩
  | some tr => rw [Oracle.add_trade, h]; exact ⟨rfl, rfl, rfl⟩

/-- Helper: running a trade sequence never changes the window, conversion
rate, or notional floor. -/
lemma runTrades_params (s0 : OracleState) :
    ∀ events : List OracleEvent,
      (Oracle.runTrades s0 events).window = s0.window ∧
      (Oracle.runTrades s0 events).usdt_usd_price = s0.usdt_usd_price ∧
      (Oracle.runTrades s0 events).min_notional = s0.min_notional := by
  intro events
  induction events using List.reverseRecOn with
  | nil => exact ⟨rfl, rfl, rfl⟩
  | append_singleton es e ih =>
    have hrun : Oracle.runTrades s0 (es ++ [e])
        = Oracle.add_trade (Oracle.runTrades s0 es) e.pair e.ts e.px e.qty e.now := by
      simp [Oracle.runTrades, List.foldl_append]
    rw [hrun]
    have hp := add_trade_params (Oracle.runTrades s0 es) e.pair e.ts e.px e.qty e.now
    exact ⟨hp.1.trans ih.1, hp.2.1.trans ih.2.1, hp.2.2.trans ih.2.2⟩

/-- Helper: a stored trade keeps its event's timestamp. -/
lemma storedOf_ts (s0 : OracleState) (e : OracleEvent) (v : ℤ × ℚ × ℚ)
    (h : storedOf s0 e = some v) : v.1 = e.ts := by
  rw [storedOf, storedTrade] at h
  rw [Option.bind_eq_some] at h
  obtain ⟨u, _, hf⟩ := h
  by_cases hn : u * e.qty < s0.min_notional
  · rw [if_pos hn] at hf
    exact absurd hf (by simp)
  · rw [if_neg hn] at hf
    have hv := Option.some_injective _ hf
    rw [← hv]

/-- Helper: the stored-trade list of a timestamp-sorted event sequence is
timestamp-sorted. -/
lemma storedList_sorted (s0 : OracleState) (events : List OracleEvent)
    (h : events.Pairwise (fun a b => a.ts < b.ts)) :
    (events.filterMap (storedOf s0)).Pairwise (fun a b => a.1 < b.1) := by
  rw [List.pairwise_filterMap]
  refine h.imp ?_
  intro a b hab x hx y hy
  rw [storedOf_ts s0 a x (Option.mem_def.mp hx), storedOf_ts s0 b y (Option.mem_def.mp hy)]
  exact hab

/-- Helper: after any well-formed `add_trade` sequence starting from an
empty window, the oracle's trade list holds exactly the stored trades whose
timestamp is within the window of the last call's wall-clock time. -/
lemma oracle_run_spec (s0 : OracleState) :
    ∀ (events : List OracleEvent), OracleEventsOk s0 events →
      s0.trades = [] →
      ∀ le, events.getLast? = some le →
        (Oracle.runTrades s0 events).trades
          = (events.filterMap (storedOf s0)).filter
              (fun t => decide ((le.now : ℚ) - s0.window * 1000 ≤ (t.1 : ℚ))) := by
  intro events
  induction events using List.reverseRecOn with
  | nil => intro _ _ le hle; simp at hle
  | append_singleton es e ih =>
    intro hok h0 le hle
    rw [List.getLast?_concat] at hle
    injection hle with hle
    subst hle
    obtain ⟨hts, hnow, hmem⟩ := hok
    have hokes : OracleEventsOk s0 es :=
      ⟨hts.sublist (List.sublist_append_left es [e]),
       hnow.sublist (List.sublist_append_left es [e]),
       fun x hx => hmem x (by simp [hx])⟩
    obtain ⟨tr, htr⟩ := Option.isSome_iff_exists.mp (hmem e (by simp)).1
    have htrts : tr.1 = e.ts := storedOf_ts s0 e tr htr
    have hrun : Oracle.runTrades s0 (es ++ [e])
        = Oracle.add_trade (Oracle.runTrades s0 es) e.pair e.ts e.px e.qty e.now := by
      simp [Oracle.runTrades, List.foldl_append]
    have hparams := runTrades_params s0 es
    have hstored : storedTrade (Oracle.runTrades s0 es).usdt_usd_price
        (Oracle.runTrades s0 es).min_notional e.pair e.ts e.px e.qty = some tr := by
      rw [hparams.2.1, hparams.2.2]
      exact htr
    have hadd : Oracle.add_trade (Oracle.runTrades s0 es) e.pair e.ts e.px e.qty e.now
        = { Oracle.runTrades s0 es with
            trades := ((Oracle.runTrades s0 es).trades ++ [tr]).dropWhile
              (fun t => decide ((t.1 : ℚ) < (e.now : ℚ)
                 - (Oracle.runTrades s0 es).window * 1000))
            last_trade_ts := e.ts } := by
      rw [Oracle.add_trade, hstored]
      rfl
    have hinw : (e.now : ℚ) - s0.window * 1000 ≤ (tr.1 : ℚ) := by
      rw [htrts]
      exact (hmem e (by simp)).2.2.2
    rw [hrun, hadd]
    dsimp only
    rw [hparams.1]
    rw [List.filterMap_append,
      show (([e] : List OracleEvent).filterMap (storedOf s0)) = [tr] from by
        simp [List.filterMap_cons, htr]]
    rcases eq_or_ne es [] with hes | hes
    · subst hes
      rw [show Oracle.runTrades s0 ([] : List OracleEvent) = s0 from rfl, h0]
      rw [show (([] : List (ℤ × ℚ × ℚ)) ++ [tr]) = [tr] from rfl]
      rw [List.dropWhile_cons_of_neg (by simpa using not_lt.mpr hinw)]
      rw [show (([] : List OracleEvent).filterMap (storedOf s0)) = [] from rfl,
        List.nil_append]
      exact (filter_singleton_pos
        (fun t => decide ((e.now : ℚ) - s0.window * 1000 ≤ (t.1 : ℚ))) tr
        (by simpa using hinw)).symm
    · have hesne : es.getLast? ≠ none := by
        simpa [List.getLast?_eq_none_iff] using hes
      obtain ⟨le', hle'⟩ := Option.ne_none_iff_exists'.mp hesne
      have hih := ih hokes h0 le' hle'
      rw [hih]
      have hA : (es.filterMap (storedOf s0)).Pairwise (fun a b => a.1 < b.1) :=
        storedList_sorted s0 es hokes.1
      have hsorted2 : ((es.filterMap (storedOf s0)).filter
          (fun t => decide ((le'.now : ℚ) - s0.window * 1000 ≤ (t.1 : ℚ)))
          ++ [tr]).Pairwise (fun a b => a.1 < b.1) := by
        rw [List.pairwise_append]
        refine ⟨hA.sublist (List.filter_sublist _), List.pairwise_singleton _ _, ?_⟩
        intro x hx y hy
        rw [List.mem_singleton] at hy
        subst hy
        obtain ⟨hxA, _⟩ := List.mem_filter.mp hx
        obtain ⟨ev, hev, hxev⟩ := List.mem_filterMap.mp hxA
        rw [htrts, storedOf_ts s0 ev x hxev]
        exact (List.pairwise_append.mp hts).2.2 ev hev e (by simp)
      rw [dropWhile_old_eq_filter _ _ hsorted2]
      rw [List.filter_append, List.filter_append]
      congr 1
      rw [List.filter_filter]
      apply List.filter_congr
      intro x _
      have hc' : le'.now ≤ e.now :=
        (List.pairwise_append.mp hnow).2.2 le' (mem_of_getLastEq hle') e (by simp)
      by_cases hx : (e.now : ℚ) - s0.window * 1000 ≤ (x.1 : ℚ)
      · have hcq : (le'.now : ℚ) ≤ (e.now : ℚ) := by exact_mod_cast hc'
        have hx' : (le'.now : ℚ) - s0.window * 1000 ≤ (x.1 : ℚ) := by linarith
        simp [hx, hx']
      · simp [hx]

/-- Claim C1: sliding-window correctness.  (i) For the `Oracle`: after any
sequence of accepted `add_trade` calls with strictly increasing timestamps,
monotone wall clock, and each trade inside the window at its arrival, the
trade list over which `compute` forms its VWAP consists of exactly the
stored trades with timestamp in `[now - window, now]` of the last call, and
that VWAP (`tradesVwap`) is the direct `Σ(price*qty)/Σ(qty)` over exactly
those trades.  (ii) For the legacy `OkxFeed`: under the same conditions the
incrementally maintained `self.price`/`self.size` equal the direct
volume-weighted average and total quantity of exactly the in-window trades,
and an empty window has `price = NaN` and `size = 0` (`FeedWindowInv`).
(iii) An `Oracle` with an empty window (and no fallback or previous price)
reports NaN and zero trades. -/
theorem sliding_window_correctness :
    (∀ (s0 : OracleState) (events : List OracleEvent), OracleEventsOk s0 events →
      s0.trades = [] → ∀ le, events.getLast? = some le →
        (Oracle.runTrades s0 events).trades
          = (events.filterMap (storedOf s0)).filter
              (fun t => decide ((le.now : ℚ) - s0.window * 1000 ≤ (t.1 : ℚ))) ∧
        tradesVwap (Oracle.runTrades s0 events).trades
          = tradesVwap ((events.filterMap (storedOf s0)).filter
              (fun t => decide ((le.now : ℚ) - s0.window * 1000 ≤ (t.1 : ℚ))))) ∧
    (∀ (windowMs : ℤ) (events : List FeedEvent), FeedEventsOk windowMs events →
      ∀ le, events.getLast? = some le →
        (OkxFeed.run windowMs events).feed
          = (events.map (fun e => e.trade)).filter
              (fun x => decide (le.now - windowMs ≤ x.ts)) ∧
        FeedWindowInv (OkxFeed.run windowMs events)) ∧
    (∀ (s : OracleState) (now : ℤ), s.trades = [] → s.last_price = none →
      ∃ m s', Oracle.compute s now none = .ok (none, m, s') ∧
        m.lookup "trades" = some (.n 0)) := by
  refine ⟨?_, ?_, ?_⟩
  · intro s0 events hok h0 le hle
    have h := oracle_run_spec s0 events hok h0 le hle
    exact ⟨h, by rw [h]⟩
  · intro windowMs events hok le hle
    exact okx_run_spec windowMs events hok le hle
  · intro s now h0 hlp
    rw [Oracle.compute]
    split
    · refine ⟨_, _, rfl, ?_⟩
      rw [h0]
      rfl
    · dsimp only
      rw [if_neg (by simp [h0])]
      rw [show ((none : Option ℚ).orElse fun _ => s.last_price) = none from hlp]
      refine ⟨_, _, rfl, ?_⟩
      rw [h0]
      rfl

/-- Claim C1 (witness): a concrete two-trade run of each component. -/
theorem sliding_window_correctness_witness :
    (Oracle.runTrades (mkOracle [] 5 900 none 0)
        [⟨1000000, "XCH-USD", 999000, 100, 1⟩, ⟨1001000, "XCH-USD", 1000500, 110, 2⟩]).trades
      = [(999000, 100, 1), (1000500, 110, 2)] ∧
    (OkxFeed.run 3600000 [⟨1000, ⟨100, 2, 900⟩⟩, ⟨2000, ⟨50, 1, 1900⟩⟩]).price
      = some (250 / 3) := by
  have h := sliding_window_correctness
  constructor
  · have h1 := h.1 (mkOracle [] 5 900 none 0)
      [⟨1000000, "XCH-USD", 999000, 100, 1⟩, ⟨1001000, "XCH-USD", 1000500, 110, 2⟩]
      (by decide) rfl ⟨1001000, "XCH-USD", 1000500, 110, 2⟩ rfl
    exact h1.1.trans (by decide)
  · have h2 := h.2.1 3600000 [⟨1000, ⟨100, 2, 900⟩⟩, ⟨2000, ⟨50, 1, 1900⟩⟩]
      (by decide) ⟨2000, ⟨50, 1, 1900⟩⟩ rfl
    have hne : (OkxFeed.run 3600000 [⟨1000, ⟨100, 2, 900⟩⟩, ⟨2000, ⟨50, 1, 1900⟩⟩]).feed
        ≠ [] := by
      rw [h2.1]
      decide
    have hp := h2.2.2.2 hne
    rw [hp, h2.1]
    decide

end KeeperBots
